import Mathlib

/-!
# Verification of the QuizNet TCP/UDP quiz servers

Shallow embedding of the quiz-server code in
`src/tcp_quiz/server_tcp.py` and `src/udp_quiz/server_udp.py`:
the scoring policy, the player registry, answer recording, the
leaderboard serializer, and the collecting-phase exit conditions.
Python floats are modelled as rationals, Python `int` as `ℤ`,
Python strings as `String` (or `List Char` where character-level
normalization is analysed), dictionaries as insertion-ordered
association lists.
-/

/-- Python's `int()` conversion applied to a numeric value:
truncation toward zero (floor for nonnegative, ceiling for negative). -/
def pythonInt (q : ℚ) : ℤ := if 0 ≤ q then ⌊q⌋ else ⌈q⌉

/-- Embedding of `calculate_time_bonus(time_taken, max_time)`
(`server_tcp.py` lines 74-97, identical in `server_udp.py` lines 56-79):
`if time_taken >= max_time: return 500`, otherwise
`bonus = int(500 + (1.0 - time_taken/max_time) * 500)` and
`return max(500, min(1000, bonus))`. -/
def calculate_time_bonus (time_taken : ℚ) (max_time : ℚ) : ℤ :=
  if time_taken ≥ max_time then 500
  else max 500 (min 1000 (pythonInt (500 + (1 - time_taken / max_time) * 500)))

/-- The scoring function as the spec words it (`computeBonus`): identical
except that the undershoot case uses `round` instead of Python's `int`
truncation.  Kept separate so the implementation can be compared with it. -/
def computeBonus_spec (elapsed : ℚ) (budget : ℚ) : ℤ :=
  if elapsed ≥ budget then 500
  else max 500 (min 1000 (round (500 + (1 - elapsed / budget) * 500)))

theorem calculate_time_bonus_ge_500 (t m : ℚ) : 500 ≤ calculate_time_bonus t m := by
  unfold calculate_time_bonus
  split
  · exact le_refl _
  · exact le_max_left _ _

theorem calculate_time_bonus_le_1000 (t m : ℚ) : calculate_time_bonus t m ≤ 1000 := by
  unfold calculate_time_bonus
  split
  · norm_num
  · exact max_le (by norm_num) (min_le_left _ _)

theorem pythonInt_of_nonneg {q : ℚ} (h : 0 ≤ q) : pythonInt q = ⌊q⌋ := if_pos h

/-- In the undershoot branch the argument of `int()` is strictly above 500. -/
theorem bonus_arg_gt_500 {t m : ℚ} (hm : 0 < m) (ht : t < m) :
    (500 : ℚ) < 500 + (1 - t / m) * 500 := by
  have h1 : t / m < 1 := (div_lt_one hm).mpr ht
  nlinarith

theorem calculate_time_bonus_of_lt {t m : ℚ} (hm : 0 < m) (ht : t < m) :
    calculate_time_bonus t m =
      max 500 (min 1000 ⌊(500 : ℚ) + (1 - t / m) * 500⌋) := by
  unfold calculate_time_bonus
  rw [if_neg (not_le.mpr ht),
    pythonInt_of_nonneg (le_of_lt (lt_trans (by norm_num) (bonus_arg_gt_500 hm ht)))]

/-- `C1` — corrected.  The scoring function truncates (Python `int`) rather than
rounding to nearest: for every elapsed time `e` and positive budget `b`,
`calculate_time_bonus` returns 500 when `e ≥ b`, otherwise the floor of
`500 + (1 - e/b)*500` clamped to `[500, 1000]`; in particular the bonus at
elapsed 0 is 1000 and the bonus at `e = b` is 500. -/
theorem calculate_time_bonus_floor_spec (e b : ℚ) (hb : 0 < b) :
    (b ≤ e → calculate_time_bonus e b = 500) ∧
    (e < b → calculate_time_bonus e b =
      max 500 (min 1000 ⌊(500 : ℚ) + (1 - e / b) * 500⌋)) ∧
    calculate_time_bonus 0 b = 1000 ∧
    calculate_time_bonus b b = 500 := by
  refine ⟨fun hle => ?_, fun hlt => calculate_time_bonus_of_lt hb hlt, ?_, ?_⟩
  · unfold calculate_time_bonus
    rw [if_pos hle]
  · rw [calculate_time_bonus_of_lt hb hb]
    norm_num
  · unfold calculate_time_bonus
    rw [if_pos (le_refl b)]

/-- Witness for `calculate_time_bonus_floor_spec` at `e = 1`, `b = 16`. -/
theorem calculate_time_bonus_floor_spec_witness :
    (0 : ℚ) < 16 ∧
      ((16 : ℚ) ≤ 1 → calculate_time_bonus 1 16 = 500) ∧
      ((1 : ℚ) < 16 → calculate_time_bonus 1 16 =
        max 500 (min 1000 ⌊(500 : ℚ) + (1 - 1 / 16) * 500⌋)) ∧
      calculate_time_bonus 0 16 = 1000 ∧
      calculate_time_bonus 16 16 = 500 :=
  ⟨by norm_num, calculate_time_bonus_floor_spec 1 16 (by norm_num)⟩

/-- `C1` — counterexample to the claim as stated: at elapsed 1 with budget 16
the value before conversion is `968.75`; the code truncates to 968 while the
claimed `round` gives 969. -/
theorem calculate_time_bonus_ne_round_spec :
    calculate_time_bonus 1 16 = 968 ∧ computeBonus_spec 1 16 = 969 ∧
      calculate_time_bonus 1 16 ≠ computeBonus_spec 1 16 := by
  have h1 : calculate_time_bonus 1 16 = 968 := by
    unfold calculate_time_bonus pythonInt
    norm_num
  have h2 : computeBonus_spec 1 16 = 969 := by
    unfold computeBonus_spec
    rw [if_neg (by norm_num)]
    norm_num [round_eq]
  exact ⟨h1, h2, by rw [h1, h2]; norm_num⟩

theorem calculate_time_bonus_mono {b e1 e2 : ℚ} (hb : 0 < b) (h12 : e1 ≤ e2) :
    calculate_time_bonus e2 b ≤ calculate_time_bonus e1 b := by
  by_cases h2 : b ≤ e2
  · have : calculate_time_bonus e2 b = 500 := by
      unfold calculate_time_bonus
      rw [if_pos h2]
    rw [this]
    exact calculate_time_bonus_ge_500 _ _
  · have he2 : e2 < b := not_le.mp h2
    have he1 : e1 < b := lt_of_le_of_lt h12 he2
    rw [calculate_time_bonus_of_lt hb he1, calculate_time_bonus_of_lt hb he2]
    have hdiv : e1 / b ≤ e2 / b := by gcongr
    have harg : (500 : ℚ) + (1 - e2 / b) * 500 ≤ 500 + (1 - e1 / b) * 500 := by
      nlinarith
    exact max_le_max (le_refl _) (min_le_min (le_refl _) (Int.floor_mono harg))

/-- `C2` — corrected.  On `0 ≤ e1 ≤ e2` (budget positive) the bonus is
monotonically non-increasing — not strictly decreasing, since truncation can
send distinct elapsed times to the same point value — and on `[0, b)` the
result lies within `[500, 1000]`. -/
theorem calculate_time_bonus_antitone_range (b e1 e2 : ℚ) (hb : 0 < b)
    (_h1 : 0 ≤ e1) (h12 : e1 ≤ e2) :
    calculate_time_bonus e2 b ≤ calculate_time_bonus e1 b ∧
    (e1 < b → 500 ≤ calculate_time_bonus e1 b ∧ calculate_time_bonus e1 b ≤ 1000) := by
  refine ⟨calculate_time_bonus_mono hb h12, fun _ => ?_⟩
  exact ⟨calculate_time_bonus_ge_500 _ _, calculate_time_bonus_le_1000 _ _⟩

/-- Witness for `calculate_time_bonus_antitone_range` at `e1 = 3`, `e2 = 7`,
`b = 15`. -/
theorem calculate_time_bonus_antitone_range_witness :
    ((0 : ℚ) < 15 ∧ (0 : ℚ) ≤ 3 ∧ (3 : ℚ) ≤ 7) ∧
      (calculate_time_bonus 7 15 ≤ calculate_time_bonus 3 15 ∧
        ((3 : ℚ) < 15 → 500 ≤ calculate_time_bonus 3 15 ∧
          calculate_time_bonus 3 15 ≤ 1000)) :=
  ⟨⟨by norm_num, by norm_num, by norm_num⟩,
    calculate_time_bonus_antitone_range 15 3 7 (by norm_num) (by norm_num) (by norm_num)⟩

/-- `C2` — counterexample to strict decrease: with budget 2 the elapsed times
`1/1024 < 1/512` (both exactly representable in binary floating point, and all
intermediate products exact) truncate to the same 999 points. -/
theorem calculate_time_bonus_not_strictly_decreasing :
    (0 : ℚ) ≤ 1 / 1024 ∧ (1 / 1024 : ℚ) < 1 / 512 ∧ (1 / 512 : ℚ) < 2 ∧
      calculate_time_bonus (1 / 1024) 2 = 999 ∧
      calculate_time_bonus (1 / 512) 2 = 999 ∧
      ¬ calculate_time_bonus (1 / 512) 2 < calculate_time_bonus (1 / 1024) 2 := by
  have h1 : calculate_time_bonus (1 / 1024) 2 = 999 := by
    unfold calculate_time_bonus pythonInt
    norm_num
  have h2 : calculate_time_bonus (1 / 512) 2 = 999 := by
    unfold calculate_time_bonus pythonInt
    norm_num
  refine ⟨by norm_num, by norm_num, by norm_num, h1, h2, ?_⟩
  rw [h1, h2]
  norm_num

/-- Association-list lookup (model of Python `dict` access). -/
def alookup {α β : Type} [DecidableEq α] (k : α) : List (α × β) → Option β
  | [] => none
  | (k', v) :: rest => if k' = k then some v else alookup k rest

/-- Python `d[k] = v` on an insertion-ordered dictionary: overwrite the
entry in place when the key exists (keys are unique in a dict, so replacing
the first occurrence is exact), otherwise append at the end. -/
def dictSet {α β : Type} [DecidableEq α] : List (α × β) → α → β → List (α × β)
  | [], k, v => [(k, v)]
  | (k', v') :: rest, k, v =>
      if k' = k then (k, v) :: rest else (k', v') :: dictSet rest k v

/-- Python `d.setdefault(k, v)`: insert only when the key is absent. -/
def dictSetdefault {α β : Type} [DecidableEq α] (l : List (α × β)) (k : α) (v : β) :
    List (α × β) :=
  if (alookup k l).isSome then l else l ++ [(k, v)]

/-- One entry of the TCP server's global `players` list
(`server_tcp.py` line 384; the socket handle is omitted). -/
structure TCPPlayer where
  username : String
  alive : Bool
  ip : String
  last_answer : Option String
  answer_time : Option ℚ
deriving DecidableEq, Repr

/-- The join path of `handle_client` (`server_tcp.py` lines 360-394):
reject a username already held by an alive player with
`error:username_taken`; then reject a second connection from an alive
player's IP with `error:ip_exists`; otherwise append the new player.
Returns the updated registry and the error line sent, if any. -/
def tcp_register (players : List TCPPlayer) (username ip : String) :
    List TCPPlayer × Option String :=
  if players.any (fun p => p.alive && p.username == username) then
    (players, some "error:username_taken")
  else if players.any (fun p => p.alive && p.ip == ip) then
    (players, some "error:ip_exists")
  else
    (players ++ [⟨username, true, ip, none, none⟩], none)

/-- The answer branch of `handle_client` (`server_tcp.py` lines 420-424):
the recorded answer and timestamp are overwritten unconditionally. -/
def tcp_record_answer (p : TCPPlayer) (ans : String) (now : ℚ) : TCPPlayer :=
  { p with last_answer := some ans, answer_time := some now }

/-- A UDP client's address `(ip, port)`. -/
abbrev UDPAddr := String × Nat

/-- The UDP server's global mutable state (`server_udp.py` lines 36-42). -/
structure UDPState where
  clients : List UDPAddr
  usernames : List (UDPAddr × String)
  scores : List (String × ℤ)
  streaks : List (String × ℤ)
  answer_times : List (UDPAddr × ℚ)
  last_answers : List (UDPAddr × String)
deriving DecidableEq, Repr

/-- `add_client(addr, username)` (`server_udp.py` lines 199-208): append the
address if new, map it to the username, and initialize score and streak
entries if the username is new.  No duplicate-username or duplicate-origin
check is performed. -/
def add_client (st : UDPState) (addr : UDPAddr) (username : String) : UDPState :=
  { st with
    clients := if addr ∈ st.clients then st.clients else st.clients ++ [addr],
    usernames := dictSet st.usernames addr username,
    scores := dictSetdefault st.scores username 0,
    streaks := dictSetdefault st.streaks username 0 }

/-- The answer branch of the UDP `ask_question` receive loop
(`server_udp.py` lines 363-366): record the answer and its timestamp only
if this address has not answered this round (`if addr not in last_answers`). -/
def udp_record_answer (st : UDPState) (addr : UDPAddr) (ans : String) (now : ℚ) :
    UDPState :=
  if (alookup addr st.last_answers).isSome then st
  else
    { st with
      last_answers := dictSet st.last_answers addr ans,
      answer_times := dictSet st.answer_times addr now }

theorem alookup_dictSet_self {α β : Type} [DecidableEq α]
    (l : List (α × β)) (k : α) (v : β) : alookup k (dictSet l k v) = some v := by
  induction l with
  | nil => simp [dictSet, alookup]
  | cons hd tl ih =>
    obtain ⟨k', v'⟩ := hd
    by_cases h : k' = k
    · simp [dictSet, h, alookup]
    · simp [dictSet, h, alookup, ih]

theorem alookup_dictSet_ne {α β : Type} [DecidableEq α]
    (l : List (α × β)) {k k' : α} (v : β) (h : k' ≠ k) :
    alookup k' (dictSet l k v) = alookup k' l := by
  have hk : ¬ (k = k') := fun hc => h hc.symm
  induction l with
  | nil => simp [dictSet, alookup, hk]
  | cons hd tl ih =>
    obtain ⟨k'', v''⟩ := hd
    by_cases hck : k'' = k
    · subst hck
      simp [dictSet, alookup, hk]
    · simp only [dictSet, if_neg hck, alookup]
      by_cases hck' : k'' = k'
      · simp [hck']
      · simp [hck', ih]

/-- `C3` — counterexample to first-write-wins in the TCP server: a player who
already recorded answer `A` at time 2 has both fields overwritten by a later
`answer:B` at time 5 (`handle_client` stores unconditionally). -/
theorem tcp_record_answer_overwrites :
    tcp_record_answer ⟨"alice", true, "10.0.0.1", some "A", some 2⟩ "B" 5 =
      ⟨"alice", true, "10.0.0.1", some "B", some 5⟩ ∧
    (tcp_record_answer ⟨"alice", true, "10.0.0.1", some "A", some 2⟩ "B" 5).last_answer
      ≠ some "A" ∧
    (tcp_record_answer ⟨"alice", true, "10.0.0.1", some "A", some 2⟩ "B" 5).answer_time
      ≠ some 2 := by
  refine ⟨rfl, by simp [tcp_record_answer], by simp [tcp_record_answer]⟩

/-- `C3` — corrected (the first-write-wins invariant holds in the UDP server
only): a first answer from an address records the answer and its timestamp,
and any later answer from the same address in the same round leaves the whole
state unchanged. -/
theorem udp_record_answer_first_write_wins (st : UDPState) (addr : UDPAddr)
    (a1 a2 : String) (t1 t2 : ℚ) (h : alookup addr st.last_answers = none) :
    alookup addr (udp_record_answer st addr a1 t1).last_answers = some a1 ∧
    alookup addr (udp_record_answer st addr a1 t1).answer_times = some t1 ∧
    udp_record_answer (udp_record_answer st addr a1 t1) addr a2 t2 =
      udp_record_answer st addr a1 t1 := by
  have h1 : udp_record_answer st addr a1 t1 =
      { st with
        last_answers := dictSet st.last_answers addr a1,
        answer_times := dictSet st.answer_times addr t1 } := by
    unfold udp_record_answer
    rw [if_neg (by simp [h])]
  refine ⟨by rw [h1]; exact alookup_dictSet_self _ _ _,
    by rw [h1]; exact alookup_dictSet_self _ _ _, ?_⟩
  rw [h1]
  unfold udp_record_answer
  simp [alookup_dictSet_self]

/-- Witness for `udp_record_answer_first_write_wins`: one connected client
answering twice in a round. -/
theorem udp_record_answer_first_write_wins_witness :
    alookup (("10.0.0.1", 5000) : UDPAddr)
      (UDPState.mk [("10.0.0.1", 5000)] [(("10.0.0.1", 5000), "alice")]
        [("alice", 0)] [("alice", 0)] [] []).last_answers = none ∧
    (alookup (("10.0.0.1", 5000) : UDPAddr)
      (udp_record_answer
        (UDPState.mk [("10.0.0.1", 5000)] [(("10.0.0.1", 5000), "alice")]
          [("alice", 0)] [("alice", 0)] [] [])
        ("10.0.0.1", 5000) "A" 2).last_answers = some "A" ∧
    alookup (("10.0.0.1", 5000) : UDPAddr)
      (udp_record_answer
        (UDPState.mk [("10.0.0.1", 5000)] [(("10.0.0.1", 5000), "alice")]
          [("alice", 0)] [("alice", 0)] [] [])
        ("10.0.0.1", 5000) "A" 2).answer_times = some 2 ∧
    udp_record_answer
      (udp_record_answer
        (UDPState.mk [("10.0.0.1", 5000)] [(("10.0.0.1", 5000), "alice")]
          [("alice", 0)] [("alice", 0)] [] [])
        ("10.0.0.1", 5000) "A" 2) ("10.0.0.1", 5000) "B" 5 =
      udp_record_answer
        (UDPState.mk [("10.0.0.1", 5000)] [(("10.0.0.1", 5000), "alice")]
          [("alice", 0)] [("alice", 0)] [] [])
        ("10.0.0.1", 5000) "A" 2) :=
  ⟨rfl, udp_record_answer_first_write_wins _ _ "A" "B" 2 5 rfl⟩

/-- The registry invariant: no two alive players share a username. -/
def UniqueAliveNames (ps : List TCPPlayer) : Prop :=
  ps.Pairwise (fun p q => p.alive = true → q.alive = true → p.username ≠ q.username)

/-- `C4` — corrected (holds for the TCP server only).  A TCP join attempt with
a username already held by an alive player is rejected with
`error:username_taken` and leaves the registry unchanged; and any TCP
registration preserves the at-most-one-alive-player-per-username invariant.
(The UDP `add_client` has no such check, see the counterexample.) -/
theorem tcp_register_rejects_duplicate_username
    (ps : List TCPPlayer) (u ip v ip2 : String)
    (hdup : ∃ p ∈ ps, p.alive = true ∧ p.username = u)
    (hinv : UniqueAliveNames ps) :
    tcp_register ps u ip = (ps, some "error:username_taken") ∧
    UniqueAliveNames (tcp_register ps v ip2).1 := by
  constructor
  · obtain ⟨p, hp, ha, hn⟩ := hdup
    unfold tcp_register
    rw [if_pos]
    exact List.any_eq_true.mpr ⟨p, hp, by simp [ha, hn]⟩
  · unfold UniqueAliveNames at hinv ⊢
    unfold tcp_register
    by_cases h1 : ps.any (fun p => p.alive && p.username == v)
    · rw [if_pos h1]
      exact hinv
    · rw [if_neg h1]
      by_cases h2 : ps.any (fun p => p.alive && p.ip == ip2)
      · rw [if_pos h2]
        exact hinv
      · rw [if_neg h2]
        refine List.pairwise_append.mpr ⟨hinv, List.pairwise_singleton _ _, ?_⟩
        intro p hp q hq hpa _ hname
        have := (List.any_eq_false.mp (Bool.of_not_eq_true h1)) p hp
        rw [List.mem_singleton.mp hq] at hname
        simp [hpa, hname] at this

/-- Witness for `tcp_register_rejects_duplicate_username`: "alice" is alive,
a second "alice" joins from a different address. -/
theorem tcp_register_rejects_duplicate_username_witness :
    ((∃ p ∈ [TCPPlayer.mk "alice" true "10.0.0.1" none none],
        p.alive = true ∧ p.username = "alice") ∧
      UniqueAliveNames [TCPPlayer.mk "alice" true "10.0.0.1" none none]) ∧
    (tcp_register [TCPPlayer.mk "alice" true "10.0.0.1" none none]
        "alice" "10.0.0.2" =
      ([TCPPlayer.mk "alice" true "10.0.0.1" none none],
        some "error:username_taken") ∧
      UniqueAliveNames
        (tcp_register [TCPPlayer.mk "alice" true "10.0.0.1" none none]
          "bob" "10.0.0.3").1) :=
  ⟨⟨⟨TCPPlayer.mk "alice" true "10.0.0.1" none none, by simp, rfl, rfl⟩,
      List.pairwise_singleton _ _⟩,
    tcp_register_rejects_duplicate_username _ "alice" "10.0.0.2" "bob" "10.0.0.3"
      ⟨TCPPlayer.mk "alice" true "10.0.0.1" none none, by simp, rfl, rfl⟩
      (List.pairwise_singleton _ _)⟩

/-- `C4` — counterexample: the UDP server accepts a second client under the
same username without any check; both addresses end up simultaneously
registered as "alice" and they share one score entry. -/
theorem udp_add_client_duplicate_username_accepted :
    (add_client (add_client (UDPState.mk [] [] [] [] [] [])
        ("10.0.0.1", 1111) "alice") ("10.0.0.2", 2222) "alice").clients =
      [("10.0.0.1", 1111), ("10.0.0.2", 2222)] ∧
    alookup (("10.0.0.1", 1111) : UDPAddr)
      (add_client (add_client (UDPState.mk [] [] [] [] [] [])
        ("10.0.0.1", 1111) "alice") ("10.0.0.2", 2222) "alice").usernames =
      some "alice" ∧
    alookup (("10.0.0.2", 2222) : UDPAddr)
      (add_client (add_client (UDPState.mk [] [] [] [] [] [])
        ("10.0.0.1", 1111) "alice") ("10.0.0.2", 2222) "alice").usernames =
      some "alice" ∧
    (add_client (add_client (UDPState.mk [] [] [] [] [] [])
        ("10.0.0.1", 1111) "alice") ("10.0.0.2", 2222) "alice").scores =
      [("alice", 0)] := by
  refine ⟨rfl, rfl, rfl, rfl⟩

/-- `C5` — corrected.  A second connection from an origin with an alive player
is rejected regardless of the chosen username, but the wire line carries the
code `ip_exists`, not `duplicate_origin`: with a fresh username the client
receives exactly `error:ip_exists`. -/
theorem tcp_register_rejects_duplicate_ip (ps : List TCPPlayer) (u ip : String)
    (hip : ∃ p ∈ ps, p.alive = true ∧ p.ip = ip) :
    (tcp_register ps u ip).1 = ps ∧ (tcp_register ps u ip).2.isSome = true ∧
    ((∀ p ∈ ps, p.alive = true → p.username ≠ u) →
      tcp_register ps u ip = (ps, some "error:ip_exists")) := by
  unfold tcp_register
  by_cases h1 : ps.any (fun p => p.alive && p.username == u)
  · rw [if_pos h1]
    refine ⟨rfl, rfl, fun hname => ?_⟩
    obtain ⟨p, hp, hcond⟩ := List.any_eq_true.mp h1
    have ha : p.alive = true := by
      cases hb : p.alive <;> simp [hb] at hcond ⊢
    have hn : p.username = u := by
      have := (Bool.and_eq_true _ _).mp hcond
      exact eq_of_beq this.2
    exact absurd hn (hname p hp ha)
  · rw [if_neg h1]
    have h2 : ps.any (fun p => p.alive && p.ip == ip) = true := by
      obtain ⟨p, hp, ha, hi⟩ := hip
      exact List.any_eq_true.mpr ⟨p, hp, by simp [ha, hi]⟩
    rw [if_pos h2]
    exact ⟨rfl, rfl, fun _ => rfl⟩

/-- Witness for `tcp_register_rejects_duplicate_ip`: "bob" joins from the
address alive player "alice" connected from. -/
theorem tcp_register_rejects_duplicate_ip_witness :
    (∃ p ∈ [TCPPlayer.mk "alice" true "10.0.0.1" none none],
        p.alive = true ∧ p.ip = "10.0.0.1") ∧
    ((tcp_register [TCPPlayer.mk "alice" true "10.0.0.1" none none]
        "bob" "10.0.0.1").1 = [TCPPlayer.mk "alice" true "10.0.0.1" none none] ∧
      (tcp_register [TCPPlayer.mk "alice" true "10.0.0.1" none none]
        "bob" "10.0.0.1").2.isSome = true ∧
      ((∀ p ∈ [TCPPlayer.mk "alice" true "10.0.0.1" none none],
          p.alive = true → p.username ≠ "bob") →
        tcp_register [TCPPlayer.mk "alice" true "10.0.0.1" none none]
          "bob" "10.0.0.1" =
          ([TCPPlayer.mk "alice" true "10.0.0.1" none none],
            some "error:ip_exists"))) :=
  ⟨⟨TCPPlayer.mk "alice" true "10.0.0.1" none none, by simp, rfl, rfl⟩,
    tcp_register_rejects_duplicate_ip _ "bob" "10.0.0.1"
      ⟨TCPPlayer.mk "alice" true "10.0.0.1" none none, by simp, rfl, rfl⟩⟩

/-- `C5` — counterexample to the claimed wire text: the line actually sent on
a duplicate-origin rejection is `error:ip_exists`, not `error:duplicate_origin`. -/
theorem tcp_register_ip_exists_not_duplicate_origin :
    tcp_register [TCPPlayer.mk "alice" true "10.0.0.1" none none]
        "bob" "10.0.0.1" =
      ([TCPPlayer.mk "alice" true "10.0.0.1" none none], some "error:ip_exists") ∧
    (some "error:ip_exists" : Option String) ≠ some "error:duplicate_origin" := by
  refine ⟨rfl, by decide⟩

/-- Stable insertion for a descending sort by points (second component):
the incoming entry goes in front of the first entry it is not strictly
below, so earlier entries keep their position among ties — the behaviour of
Python's stable `sorted(..., key=lambda x: x[1], reverse=True)`. -/
def insertScoreDesc (x : String × ℤ) : List (String × ℤ) → List (String × ℤ)
  | [] => [x]
  | y :: ys => if y.2 ≤ x.2 then x :: y :: ys else y :: insertScoreDesc x ys

/-- Stable descending sort by points of the insertion-ordered score table. -/
def sortScoresDesc : List (String × ℤ) → List (String × ℤ)
  | [] => []
  | x :: xs => insertScoreDesc x (sortScoresDesc xs)

/-- Embedding of `leaderboard_text()` (`server_tcp.py` lines 309-322,
identical in `server_udp.py` lines 245-258): `score:EMPTY:0` when the score
dict is empty, otherwise `score:` followed by `user:points` pairs joined by
`|`, sorted by points descending with Python's stable sort. -/
def leaderboard_text (scores : List (String × ℤ)) : String :=
  if scores = [] then "score:EMPTY:0"
  else
    "score:" ++ String.intercalate "|"
      ((sortScoresDesc scores).map (fun p => p.1 ++ ":" ++ toString p.2))

theorem perm_insertScoreDesc (x : String × ℤ) (l : List (String × ℤ)) :
    (insertScoreDesc x l).Perm (x :: l) := by
  induction l with
  | nil => exact List.Perm.refl _
  | cons y ys ih =>
    by_cases h : y.2 ≤ x.2
    · rw [insertScoreDesc, if_pos h]
    · rw [insertScoreDesc, if_neg h]
      exact (ih.cons y).trans (List.Perm.swap x y ys)

theorem perm_sortScoresDesc (l : List (String × ℤ)) : (sortScoresDesc l).Perm l := by
  induction l with
  | nil => exact List.Perm.refl _
  | cons x xs ih =>
    exact (perm_insertScoreDesc x (sortScoresDesc xs)).trans (ih.cons x)

theorem pairwise_insertScoreDesc (x : String × ℤ) (l : List (String × ℤ))
    (h : l.Pairwise (fun a b => b.2 ≤ a.2)) :
    (insertScoreDesc x l).Pairwise (fun a b => b.2 ≤ a.2) := by
  induction l with
  | nil => exact List.pairwise_singleton _ _
  | cons y ys ih =>
    rw [List.pairwise_cons] at h
    by_cases hxy : y.2 ≤ x.2
    · rw [insertScoreDesc, if_pos hxy]
      refine List.pairwise_cons.mpr ⟨?_, List.pairwise_cons.mpr h⟩
      intro z hz
      rcases List.mem_cons.mp hz with hz | hz
      · rw [hz]; exact hxy
      · exact le_trans (h.1 z hz) hxy
    · rw [insertScoreDesc, if_neg hxy]
      refine List.pairwise_cons.mpr ⟨?_, ih h.2⟩
      intro z hz
      have hz' := (perm_insertScoreDesc x ys).mem_iff.mp hz
      rcases List.mem_cons.mp hz' with hz' | hz'
      · rw [hz']; exact le_of_not_le hxy
      · exact h.1 z hz'

theorem pairwise_sortScoresDesc (l : List (String × ℤ)) :
    (sortScoresDesc l).Pairwise (fun a b => b.2 ≤ a.2) := by
  induction l with
  | nil => exact List.Pairwise.nil
  | cons x xs ih => exact pairwise_insertScoreDesc x _ ih

theorem filter_insertScoreDesc (x : String × ℤ) (l : List (String × ℤ)) (k : ℤ) :
    (insertScoreDesc x l).filter (fun p => p.2 == k) =
      (x :: l).filter (fun p => p.2 == k) := by
  induction l with
  | nil => rfl
  | cons y ys ih =>
    by_cases hxy : y.2 ≤ x.2
    · rw [insertScoreDesc, if_pos hxy]
    · rw [insertScoreDesc, if_neg hxy]
      have hxlt : x.2 < y.2 := lt_of_not_le hxy
      by_cases hyk : y.2 = k
      · have hxk : ¬ (x.2 = k) := by
          intro hc
          rw [hc, hyk] at hxlt
          exact lt_irrefl _ hxlt
        simp [List.filter_cons, hyk, hxk, ih]
      · simp [List.filter_cons, hyk, ih]

theorem filter_sortScoresDesc (l : List (String × ℤ)) (k : ℤ) :
    (sortScoresDesc l).filter (fun p => p.2 == k) =
      l.filter (fun p => p.2 == k) := by
  induction l with
  | nil => rfl
  | cons x xs ih =>
    rw [sortScoresDesc, filter_insertScoreDesc]
    simp only [List.filter_cons, ih]

/-- `C6` — confirmed.  The scoreboard serializer returns exactly
`score:EMPTY:0` on an empty table and `score:bob:20|alice:10` on
`{"alice": 10, "bob": 20}`; in general the serialized order is a
permutation of the table sorted by points descending, and entries with
equal points keep the table's insertion order (stability). -/
theorem leaderboard_text_spec :
    leaderboard_text [] = "score:EMPTY:0" ∧
    leaderboard_text [("alice", 10), ("bob", 20)] = "score:bob:20|alice:10" ∧
    (∀ l : List (String × ℤ),
      (sortScoresDesc l).Pairwise (fun a b => b.2 ≤ a.2) ∧
      (sortScoresDesc l).Perm l ∧
      (∀ k : ℤ, (sortScoresDesc l).filter (fun p => p.2 == k) =
        l.filter (fun p => p.2 == k))) := by
  refine ⟨rfl, by decide, fun l => ⟨pairwise_sortScoresDesc l, perm_sortScoresDesc l,
    fun k => filter_sortScoresDesc l k⟩⟩

theorem alookup_append_of_some {α β : Type} [DecidableEq α]
    {l : List (α × β)} {k : α} {v : β} (l2 : List (α × β))
    (h : alookup k l = some v) : alookup k (l ++ l2) = some v := by
  induction l with
  | nil => exact absurd h (by simp [alookup])
  | cons hd tl ih =>
    obtain ⟨k', v'⟩ := hd
    rw [alookup] at h
    by_cases hk : k' = k
    · rw [if_pos hk] at h
      simp only [List.cons_append, alookup, if_pos hk]
      exact h
    · rw [if_neg hk] at h
      simp only [List.cons_append, alookup, if_neg hk]
      exact ih h

/-- The score and streak tables shared by both servers
(`scores`/`streaks` globals). -/
structure ScoreState where
  scores : List (String × ℤ)
  streaks : List (String × ℤ)
deriving DecidableEq, Repr

/-- The operations of the quiz engine that touch the score and streak
tables, as performed by the source: registration runs
`scores.setdefault(u, 0)` / `streaks.setdefault(u, 0)`; a correct answer
runs `scores[u] = scores.get(u, 0) + calculate_time_bonus(t, m)` and
`streaks[u] = streaks.get(u, 0) + 1` (`ask_question`); a wrong answer or a
timeout runs `streaks[u] = 0`; a disconnect only clears the alive flag and
touches neither table. -/
inductive EngineOp where
  | register (u : String)
  | correctAnswer (u : String) (time_taken max_time : ℚ)
  | wrongAnswer (u : String)
  | timeoutAnswer (u : String)
  | disconnect (u : String)

/-- Apply one engine operation to the score/streak tables. -/
def applyOp (st : ScoreState) : EngineOp → ScoreState
  | .register u =>
      { st with
        scores := dictSetdefault st.scores u 0,
        streaks := dictSetdefault st.streaks u 0 }
  | .correctAnswer u t m =>
      { st with
        scores := dictSet st.scores u
          ((alookup u st.scores).getD 0 + calculate_time_bonus t m),
        streaks := dictSet st.streaks u ((alookup u st.streaks).getD 0 + 1) }
  | .wrongAnswer u => { st with streaks := dictSet st.streaks u 0 }
  | .timeoutAnswer u => { st with streaks := dictSet st.streaks u 0 }
  | .disconnect _ => st

theorem applyOp_score_mono (st : ScoreState) (op : EngineOp) (u : String) (v : ℤ)
    (h : alookup u st.scores = some v) :
    ∃ v', alookup u (applyOp st op).scores = some v' ∧ v ≤ v' := by
  cases op with
  | register w =>
    refine ⟨v, ?_, le_refl v⟩
    show alookup u (dictSetdefault st.scores w 0) = some v
    unfold dictSetdefault
    split
    · exact h
    · exact alookup_append_of_some _ h
  | correctAnswer w t m =>
    by_cases hw : w = u
    · subst hw
      refine ⟨v + calculate_time_bonus t m, ?_, ?_⟩
      · show alookup w (dictSet st.scores w
          ((alookup w st.scores).getD 0 + calculate_time_bonus t m)) = _
        rw [show (alookup w st.scores).getD 0 = v from by rw [h]; rfl]
        exact alookup_dictSet_self _ _ _
      · have := calculate_time_bonus_ge_500 t m
        omega
    · refine ⟨v, ?_, le_refl v⟩
      show alookup u (dictSet st.scores w
        ((alookup w st.scores).getD 0 + calculate_time_bonus t m)) = some v
      rw [alookup_dictSet_ne _ _ (fun hc => hw hc.symm)]
      exact h
  | wrongAnswer w => exact ⟨v, h, le_refl v⟩
  | timeoutAnswer w => exact ⟨v, h, le_refl v⟩
  | disconnect w => exact ⟨v, h, le_refl v⟩

/-- `C7` — confirmed.  Along any sequence of engine operations
(registration, correct/wrong/timeout answer processing, disconnects) an
existing score entry is never removed and never decreases. -/
theorem scores_monotone_nondecreasing (ops : List EngineOp) (st : ScoreState)
    (u : String) (v : ℤ) (h : alookup u st.scores = some v) :
    ∃ v', alookup u (ops.foldl applyOp st).scores = some v' ∧ v ≤ v' := by
  induction ops generalizing st v with
  | nil => exact ⟨v, h, le_refl v⟩
  | cons op ops ih =>
    obtain ⟨v1, h1, hv1⟩ := applyOp_score_mono st op u v h
    obtain ⟨v', h', hv'⟩ := ih (applyOp st op) v1 h1
    exact ⟨v', h', le_trans hv1 hv'⟩

/-- Witness for `scores_monotone_nondecreasing`: "alice" holds 500 points,
then answers one question correctly, answers one wrongly, and disconnects. -/
theorem scores_monotone_nondecreasing_witness :
    alookup "alice" (ScoreState.mk [("alice", 500)] [("alice", 1)]).scores =
      some 500 ∧
    (∃ v', alookup "alice"
        (List.foldl applyOp (ScoreState.mk [("alice", 500)] [("alice", 1)])
          [EngineOp.correctAnswer "alice" 3 15, EngineOp.wrongAnswer "alice",
            EngineOp.disconnect "alice"]).scores = some v' ∧
      (500 : ℤ) ≤ v') :=
  ⟨rfl, scores_monotone_nondecreasing _ _ "alice" 500 rfl⟩

/-- `any_alive_players()` (`server_tcp.py` lines 288-291). -/
def any_alive_players (ps : List TCPPlayer) : Bool :=
  ps.any (fun p => p.alive)

/-- `all_players_answered()` (`server_tcp.py` lines 300-306): false exactly
when some alive player has no recorded answer. -/
def all_players_answered (ps : List TCPPlayer) : Bool :=
  ps.all (fun p => !p.alive || p.last_answer.isSome)

/-- Why the collecting loop of `ask_question` stopped. -/
inductive CollectExit where
  | deadlineReached
  | shutdown
  | skipped
  | allGone
  | allAnswered
deriving DecidableEq, Repr

/-- The exit decision of one pass of the TCP collecting loop
(`server_tcp.py` lines 489-562), with the checks in source order:
`while time.time() < deadline` at the loop head, then the shutdown check,
the host-skip check, the all-disconnected check, and — after the answers
received so far have been processed — the all-players-answered check.
`none` means the loop keeps collecting. -/
def collectStep (now deadline : ℚ) (running skip : Bool)
    (ps : List TCPPlayer) : Option CollectExit :=
  if deadline ≤ now then some .deadlineReached
  else if !running then some .shutdown
  else if skip then some .skipped
  else if !(any_alive_players ps) then some .allGone
  else if all_players_answered ps then some .allAnswered
  else none

/-- When nobody is alive, `all_players_answered` is vacuously true. -/
theorem all_players_answered_of_none_alive {ps : List TCPPlayer}
    (h : any_alive_players ps = false) : all_players_answered ps = true := by
  unfold all_players_answered
  unfold any_alive_players at h
  rw [List.all_eq_true]
  intro p hp
  have := List.any_eq_false.mp h p hp
  simp only [Bool.not_eq_true] at this
  simp [this]

/-- `C8` — confirmed.  The collecting phase of a TCP round ends exactly when
the deadline is reached, the server is shutting down, the host skipped, or
every alive player has a recorded answer (the all-disconnected break is the
vacuous case of the latter); in particular, once all alive players have
answered the loop exits without waiting out the remaining time budget. -/
theorem collectStep_exit_iff (now deadline : ℚ) (running skip : Bool)
    (ps : List TCPPlayer) :
    ((collectStep now deadline running skip ps).isSome = true ↔
      (deadline ≤ now ∨ running = false ∨ skip = true ∨
        all_players_answered ps = true)) ∧
    (all_players_answered ps = true →
      collectStep now deadline running skip ps ≠ none) := by
  have hiff : (collectStep now deadline running skip ps).isSome = true ↔
      (deadline ≤ now ∨ running = false ∨ skip = true ∨
        all_players_answered ps = true) := by
    unfold collectStep
    by_cases h1 : deadline ≤ now
    · simp [h1]
    · rw [if_neg h1]
      by_cases h2 : running
      · rw [show (!running) = false from by simp [h2], if_neg (by simp)]
        by_cases h3 : skip
        · simp [h1, h2, h3]
        · rw [if_neg (by simp [h3])]
          by_cases h4 : any_alive_players ps
          · rw [show (!any_alive_players ps) = false from by simp [h4],
              if_neg (by simp)]
            by_cases h5 : all_players_answered ps
            · simp [h1, h2, h3, h5]
            · simp [h1, h2, h3, h5]
          · have h4' : any_alive_players ps = false := by simpa using h4
            have h5 := all_players_answered_of_none_alive h4'
            simp [h1, h2, h3, h4', h5]
      · simp [h1, h2]
  refine ⟨hiff, fun hall => ?_⟩
  have := hiff.mpr (Or.inr (Or.inr (Or.inr hall)))
  exact Option.isSome_iff_ne_none.mp this

/-- Witness for `collectStep_exit_iff`: one alive player with a recorded
answer, well before the deadline. -/
theorem collectStep_exit_iff_witness :
    (((collectStep 3 10 true false
          [TCPPlayer.mk "alice" true "10.0.0.1" (some "A") (some 2)]).isSome = true ↔
        ((10 : ℚ) ≤ 3 ∨ true = false ∨ false = true ∨
          all_players_answered
            [TCPPlayer.mk "alice" true "10.0.0.1" (some "A") (some 2)] = true)) ∧
      (all_players_answered
          [TCPPlayer.mk "alice" true "10.0.0.1" (some "A") (some 2)] = true →
        collectStep 3 10 true false
          [TCPPlayer.mk "alice" true "10.0.0.1" (some "A") (some 2)] ≠ none)) ∧
    all_players_answered
      [TCPPlayer.mk "alice" true "10.0.0.1" (some "A") (some 2)] = true :=
  ⟨collectStep_exit_iff 3 10 true false
      [TCPPlayer.mk "alice" true "10.0.0.1" (some "A") (some 2)], rfl⟩

/-- Python `.upper()` on a string modelled as a character list (basic-latin
case mapping, as `Char.toUpper`). -/
def pyUpper (s : List Char) : List Char := s.map Char.toUpper

/-- Python `.strip()`: drop leading and trailing whitespace. -/
def pyStrip (s : List Char) : List Char :=
  ((s.dropWhile Char.isWhitespace).reverse.dropWhile Char.isWhitespace).reverse

/-- The normalization both servers apply to an inbound answer letter before
recording it and to the question's correct option before comparing:
`.strip().upper()` (`server_tcp.py` lines 421 and 462, `server_udp.py`
lines 291 and 359). -/
def normalizeAnswer (raw : List Char) : List Char := pyUpper (pyStrip raw)

/-- Extraction of the recorded payload of an `answer:` line:
after the `startswith("answer:")` check the code records
`line.split(":", 1)[1].strip().upper()`. -/
def answerPayload (line : List Char) : Option (List Char) :=
  if line.take 7 = "answer:".toList then some (normalizeAnswer (line.drop 7))
  else none

/-- The correctness test applied during a round: the (normalized) recorded
answer is compared with the normalized correct option. -/
def matchesCorrect (rawAns correctOpt : List Char) : Bool :=
  normalizeAnswer rawAns == normalizeAnswer correctOpt

theorem char_toNat_ofNat_valid {n : Nat} (h : n < 55296) :
    (Char.ofNat n).toNat = n := by
  rw [Char.ofNat, dif_pos (Or.inl h)]
  rfl

theorem isWhitespace_eq_false_of_toNat {c : Char} (h32 : c.toNat ≠ 32)
    (h9 : c.toNat ≠ 9) (h13 : c.toNat ≠ 13) (h10 : c.toNat ≠ 10) :
    c.isWhitespace = false := by
  unfold Char.isWhitespace
  simp only [Bool.or_eq_false_iff, decide_eq_false_iff_not]
  refine ⟨⟨⟨?_, ?_⟩, ?_⟩, ?_⟩ <;> intro hc <;> subst hc
  · exact h32 rfl
  · exact h9 rfl
  · exact h13 rfl
  · exact h10 rfl

/-- Uppercasing never turns a character into whitespace or vice versa. -/
theorem isWhitespace_toUpper (c : Char) :
    (Char.toUpper c).isWhitespace = c.isWhitespace := by
  unfold Char.toUpper
  dsimp only
  split
  case isTrue h =>
    have hv : (Char.ofNat (c.toNat - 32)).toNat = c.toNat - 32 :=
      char_toNat_ofNat_valid (by omega)
    have hws1 : c.isWhitespace = false :=
      isWhitespace_eq_false_of_toNat (by omega) (by omega) (by omega) (by omega)
    have hws2 : (Char.ofNat (c.toNat - 32)).isWhitespace = false :=
      isWhitespace_eq_false_of_toNat (by omega) (by omega) (by omega) (by omega)
    rw [hws1, hws2]
  case isFalse h => rfl

theorem pyStrip_pyUpper_comm (s : List Char) :
    pyStrip (pyUpper s) = pyUpper (pyStrip s) := by
  have hcomp : (Char.isWhitespace ∘ Char.toUpper) = Char.isWhitespace := by
    funext c
    exact isWhitespace_toUpper c
  unfold pyStrip pyUpper
  rw [List.dropWhile_map, hcomp, ← List.map_reverse, List.dropWhile_map, hcomp,
    ← List.map_reverse]

theorem dropWhile_eq_nil_of_all {l : List Char}
    (h : ∀ c ∈ l, c.isWhitespace = true) :
    l.dropWhile Char.isWhitespace = [] := by
  induction l with
  | nil => rfl
  | cons x xs ih =>
    rw [List.dropWhile_cons, if_pos (h x (by simp))]
    exact ih (fun c hc => h c (by simp [hc]))

theorem pyStrip_pad (pad1 pad2 s : List Char)
    (h1 : ∀ c ∈ pad1, c.isWhitespace = true)
    (h2 : ∀ c ∈ pad2, c.isWhitespace = true) :
    pyStrip (pad1 ++ s ++ pad2) = pyStrip s := by
  unfold pyStrip
  rw [List.append_assoc, List.dropWhile_append_of_pos h1, List.dropWhile_append]
  by_cases hs : (s.dropWhile Char.isWhitespace).isEmpty
  · rw [if_pos hs, dropWhile_eq_nil_of_all h2]
    have hsnil : s.dropWhile Char.isWhitespace = [] := by
      simpa [List.isEmpty_iff] using hs
    rw [hsnil]
  · rw [if_neg hs, List.reverse_append,
      List.dropWhile_append_of_pos
        (fun c hc => h2 c (List.mem_reverse.mp hc))]

/-- `C9` — confirmed.  Answer matching is case- and whitespace-insensitive
at the interface: the recorded payload of an `answer:` line and the correct
option are both stripped and uppercased, so two raw inputs that agree up to
letter case (`pyUpper s = pyUpper t`) and any amount of surrounding
whitespace normalize identically, are classified identically against the
correct option, and produce the same recorded payload. -/
theorem answer_normalization_insensitive (s t c pad1 pad2 : List Char)
    (hcase : pyUpper s = pyUpper t)
    (h1 : ∀ x ∈ pad1, x.isWhitespace = true)
    (h2 : ∀ x ∈ pad2, x.isWhitespace = true) :
    normalizeAnswer s = normalizeAnswer t ∧
    normalizeAnswer (pad1 ++ s ++ pad2) = normalizeAnswer s ∧
    matchesCorrect s c = matchesCorrect t c ∧
    matchesCorrect (pad1 ++ s ++ pad2) c = matchesCorrect s c ∧
    answerPayload ("answer:".toList ++ s) =
      answerPayload ("answer:".toList ++ t) := by
  have hnorm : normalizeAnswer s = normalizeAnswer t := by
    unfold normalizeAnswer
    rw [← pyStrip_pyUpper_comm, ← pyStrip_pyUpper_comm, hcase]
  have hpad : normalizeAnswer (pad1 ++ s ++ pad2) = normalizeAnswer s := by
    unfold normalizeAnswer
    rw [pyStrip_pad pad1 pad2 s h1 h2]
  have hpay : answerPayload ("answer:".toList ++ s) =
      answerPayload ("answer:".toList ++ t) := by
    unfold answerPayload
    rw [List.take_left' (by decide), List.drop_left' (by decide),
      List.take_left' (by decide), List.drop_left' (by decide),
      if_pos rfl, if_pos rfl, hnorm]
  refine ⟨hnorm, hpad, ?_, ?_, hpay⟩
  · unfold matchesCorrect
    rw [hnorm]
  · unfold matchesCorrect
    rw [hpad]

/-- Witness for `answer_normalization_insensitive`: `answer:a`, `answer:A`
and a space-padded `a` all record the payload `A` and classify alike. -/
theorem answer_normalization_insensitive_witness :
    (pyUpper ['a'] = pyUpper ['A'] ∧
      (∀ x ∈ [' '], Char.isWhitespace x = true) ∧
      (∀ x ∈ ([] : List Char), Char.isWhitespace x = true)) ∧
    (normalizeAnswer ['a'] = normalizeAnswer ['A'] ∧
      normalizeAnswer ([' '] ++ ['a'] ++ []) = normalizeAnswer ['a'] ∧
      matchesCorrect ['a'] ['A'] = matchesCorrect ['A'] ['A'] ∧
      matchesCorrect ([' '] ++ ['a'] ++ []) ['A'] = matchesCorrect ['a'] ['A'] ∧
      answerPayload ("answer:".toList ++ ['a']) =
        answerPayload ("answer:".toList ++ ['A'])) :=
  ⟨⟨by decide, by decide, by decide⟩,
    answer_normalization_insensitive ['a'] ['A'] ['A'] [' '] []
      (by decide) (by decide) (by decide)⟩

/-- `C10` — confirmed.  The scoring function is total for every positive
budget (its only division has the positive `max_time` as divisor) and the
clamp keeps the result inside `[500, 1000]` for every `time_taken`,
including negative elapsed times from clock skew, where the clamp engages
and yields exactly 1000. -/
theorem calculate_time_bonus_total_range (t m : ℚ) (hm : 0 < m) :
    (500 ≤ calculate_time_bonus t m ∧ calculate_time_bonus t m ≤ 1000) ∧
    (t < 0 → calculate_time_bonus t m = 1000) := by
  refine ⟨⟨calculate_time_bonus_ge_500 t m, calculate_time_bonus_le_1000 t m⟩,
    fun ht => ?_⟩
  have htm : t < m := lt_trans ht hm
  rw [calculate_time_bonus_of_lt hm htm]
  have hdiv : t / m < 0 := div_neg_of_neg_of_pos ht hm
  have harg : (1000 : ℚ) ≤ 500 + (1 - t / m) * 500 := by nlinarith
  have hfl : (1000 : ℤ) ≤ ⌊(500 : ℚ) + (1 - t / m) * 500⌋ :=
    Int.le_floor.mpr (by exact_mod_cast harg)
  rw [min_eq_left hfl]
  norm_num

/-- Witness for `calculate_time_bonus_total_range` at `t = -3` (clock skew),
`m = 15`. -/
theorem calculate_time_bonus_total_range_witness :
    (0 : ℚ) < 15 ∧
      ((500 ≤ calculate_time_bonus (-3) 15 ∧
        calculate_time_bonus (-3) 15 ≤ 1000) ∧
      ((-3 : ℚ) < 0 → calculate_time_bonus (-3) 15 = 1000)) :=
  ⟨by norm_num, calculate_time_bonus_total_range (-3) 15 (by norm_num)⟩
